import Mathlib

/-!
Verification development for the VeriPura tamper-evident ledger
(`backend/app/infra/ledger.py`) and the shipment consistency-graph service
(`backend/app/services/verification_service.py`).

The Python code is shallowly embedded as executable Lean definitions:

* Ledger records are modelled at JSON-value granularity.  The `timestamp`
  field is carried as its ISO-8601 rendering (a `String`): at hash time the
  Python code serializes the `datetime` via `isoformat()` and at verify time
  it re-serializes the string parsed back from the file, which is the same
  text, so one string models both.  The float `fraud_score` is modelled as an
  `Int`; its exact numeral rendering plays no role in any claim, and append
  and verify render it through the same function in the model exactly as both
  call `json.dumps` in the source.
* The ledger file is a list of lines; a line is blank, malformed (fails
  `json.loads`), or a well-formed record.  Records written by
  `append_record` are stored at value granularity (writing then re-parsing a
  record line preserves its field values).
* SHA-256 is an uninterpreted parameter `H : String → String`; claims that
  depend on collision-freeness take the needed inequality as an explicit
  hypothesis (the collision-resistance assumption), and concrete witnesses
  instantiate `H` with `id`.
* `async` effects are modelled by explicit state passing; `append_record`
  additionally takes a failure schedule saying which of its I/O steps
  raises, mirroring the `try`/`except` in the source, and each single I/O
  call is modelled as atomic (it either fully happens or raises).
-/

namespace VeriPura

/-- Structured entities persisted for consistency analysis
(`ExtractedEntityFields` in `app/schemas/ledger.py`). -/
structure ExtractedEntityFields where
  batch_id : Option String
  exporter : Option String
  quantity : Option String
  dates : List String
  certificate_id : Option String
deriving DecidableEq

/-- Subset of document metadata stored in the ledger
(`DocumentMetadataSummary` in `app/schemas/ledger.py`). -/
structure DocumentMetadataSummary where
  original_filename : String
  file_size : Nat
  document_type : String
  mime_type : String
  extracted_entities : ExtractedEntityFields
deriving DecidableEq

/-- Subset of the validation result stored in the ledger
(`ValidationResultSummary` in `app/schemas/ledger.py`).  `fraud_score` is a
float in the source; its numeric value is irrelevant to every claim, so it is
carried as an `Int` rendered identically at append and verify time. -/
structure ValidationResultSummary where
  fraud_score : Int
  risk_level : String
  is_anomaly : Bool
  rule_violation_count : Nat
deriving DecidableEq

/-- The hashable fields of a ledger record, i.e. the dict built in
`Ledger.append_record` before `record_hash` is added (equivalently, a parsed
record with the `record_hash` key removed, which is what
`Ledger._compute_record_hash` hashes).  `timestamp` is the ISO-8601 rendering
of the `datetime`. -/
structure RecordContent where
  batch_id : String
  timestamp : String
  file_id : String
  document_metadata : DocumentMetadataSummary
  validation_result : ValidationResultSummary
  previous_hash : Option String
deriving DecidableEq

/-- A full persisted ledger record (`LedgerRecord` in
`app/schemas/ledger.py`): the hashable content plus the `record_hash` field.
-/
structure LedgerRecord where
  content : RecordContent
  record_hash : String
deriving DecidableEq

/-- Ledger-assigned batch id of a record (the flat `batch_id` field of the
Python `LedgerRecord`). -/
def LedgerRecord.batch_id (r : LedgerRecord) : String :=
  r.content.batch_id

/-- Extracted entities of a record
(`record.document_metadata.extracted_entities` in the source). -/
def LedgerRecord.entities (r : LedgerRecord) : ExtractedEntityFields :=
  r.content.document_metadata.extracted_entities

/-! ### Canonical JSON encoding (`Ledger._compute_record_hash`)

`json.dumps(hashable_data, sort_keys=True, separators=(",", ":"),
default=json_serializer)` is transcribed for the fixed record schema: keys
appear in sorted order, separators are `,` and `:` with no whitespace, and
strings are escaped as `json.dumps` does with its default
`ensure_ascii=True`. -/

/-- Lower-case hexadecimal digit for `n < 16`. -/
def hexDigitChar (n : Nat) : Char :=
  if n < 10 then Char.ofNat (48 + n) else Char.ofNat (87 + n)

/-- Four-digit lower-case hexadecimal rendering of `n % 65536`, as used by
the `\uXXXX` escapes of `json.dumps`. -/
def hex4 (n : Nat) : String :=
  String.mk [hexDigitChar (n / 4096 % 16), hexDigitChar (n / 256 % 16),
    hexDigitChar (n / 16 % 16), hexDigitChar (n % 16)]

/-- Escape of a single character inside a JSON string literal, following
`json.dumps` with `ensure_ascii=True` (the default used by the source):
the two-character escapes for quote, backslash and control characters with
short forms, `\uXXXX` for other control and all non-ASCII characters, and
surrogate pairs for characters beyond the basic multilingual plane. -/
def jsonEscapeChar (c : Char) : String :=
  if c = '"' then "\\\""
  else if c = '\\' then "\\\\"
  else if c = '\n' then "\\n"
  else if c = '\r' then "\\r"
  else if c = '\t' then "\\t"
  else if c = Char.ofNat 8 then "\\b"
  else if c = Char.ofNat 12 then "\\f"
  else if c.toNat < 32 ∨ c.toNat > 126 then
    if c.toNat ≤ 65535 then "\\u" ++ hex4 c.toNat
    else
      let m := c.toNat - 65536
      "\\u" ++ hex4 (55296 + m / 1024) ++ "\\u" ++ hex4 (56320 + m % 1024)
  else String.singleton c

/-- Escape of a whole string body for a JSON string literal. -/
def jsonEscape (s : String) : String :=
  String.join (s.data.map jsonEscapeChar)

/-- JSON string literal. -/
def jsonStr (s : String) : String :=
  "\"" ++ jsonEscape s ++ "\""

/-- JSON rendering of an optional string (`null` for `None`). -/
def jsonOptStr : Option String → String
  | none => "null"
  | some s => jsonStr s

/-- JSON rendering of a list of strings. -/
def jsonStrList (xs : List String) : String :=
  "[" ++ String.intercalate "," (xs.map jsonStr) ++ "]"

/-- JSON rendering of a Boolean (`json.dumps` lower-case form). -/
def jsonBool (b : Bool) : String :=
  if b then "true" else "false"

/-- Canonical JSON of `extracted_entities`, keys sorted:
`batch_id, certificate_id, dates, exporter, quantity`. -/
def canonicalEntities (e : ExtractedEntityFields) : String :=
  "\x7b\"batch_id\":" ++ jsonOptStr e.batch_id ++
  ",\"certificate_id\":" ++ jsonOptStr e.certificate_id ++
  ",\"dates\":" ++ jsonStrList e.dates ++
  ",\"exporter\":" ++ jsonOptStr e.exporter ++
  ",\"quantity\":" ++ jsonOptStr e.quantity ++ "\x7d"

/-- Canonical JSON of `document_metadata`, keys sorted:
`document_type, extracted_entities, file_size, mime_type, original_filename`.
-/
def canonicalDocMeta (d : DocumentMetadataSummary) : String :=
  "\x7b\"document_type\":" ++ jsonStr d.document_type ++
  ",\"extracted_entities\":" ++ canonicalEntities d.extracted_entities ++
  ",\"file_size\":" ++ toString d.file_size ++
  ",\"mime_type\":" ++ jsonStr d.mime_type ++
  ",\"original_filename\":" ++ jsonStr d.original_filename ++ "\x7d"

/-- Canonical JSON of `validation_result`, keys sorted:
`fraud_score, is_anomaly, risk_level, rule_violation_count`. -/
def canonicalValidation (v : ValidationResultSummary) : String :=
  "\x7b\"fraud_score\":" ++ toString v.fraud_score ++
  ",\"is_anomaly\":" ++ jsonBool v.is_anomaly ++
  ",\"risk_level\":" ++ jsonStr v.risk_level ++
  ",\"rule_violation_count\":" ++ toString v.rule_violation_count ++ "\x7d"

/-- Canonical JSON of a record's hashable content: the exact string
`json.dumps(hashable_data, sort_keys=True, separators=(",", ":"), ...)`
produces inside `Ledger._compute_record_hash`, with top-level keys in sorted
order `batch_id, document_metadata, file_id, previous_hash, timestamp,
validation_result` and the timestamp rendered through `isoformat()`. -/
def canonicalJson (c : RecordContent) : String :=
  "\x7b\"batch_id\":" ++ jsonStr c.batch_id ++
  ",\"document_metadata\":" ++ canonicalDocMeta c.document_metadata ++
  ",\"file_id\":" ++ jsonStr c.file_id ++
  ",\"previous_hash\":" ++ jsonOptStr c.previous_hash ++
  ",\"timestamp\":" ++ jsonStr c.timestamp ++
  ",\"validation_result\":" ++ canonicalValidation c.validation_result ++ "\x7d"

/-- Transcription of `Ledger._compute_record_hash`: hash of the canonical
JSON of the record content (the record dict with the `record_hash` key
filtered out).  `H` stands for `hashlib.sha256(...).hexdigest()`. -/
def computeRecordHash (H : String → String) (c : RecordContent) : String :=
  H (canonicalJson c)

/-! ### The ledger file -/

/-- One raw line of the ledger file: blank (only whitespace), malformed
(`json.loads` raises `JSONDecodeError`), or a well-formed record.  A record
line is carried at value granularity: writing `record.model_dump_json()` and
parsing the line back preserves the field values. -/
inductive Line where
  | blank : Line
  | malformed : Line
  | record : LedgerRecord → Line
deriving DecidableEq

/-- Records among a list of lines, in file order. -/
def recordsOf (lines : List Line) : List LedgerRecord :=
  lines.filterMap fun l =>
    match l with
    | Line.record r => some r
    | _ => none

/-- State of the files touched by `Ledger`: the ledger file itself and the
temporary file `ledger.tmp` used during an append (holding, when present, the
record whose line was staged there). -/
structure FsState where
  ledger : List Line
  temp : Option LedgerRecord
deriving DecidableEq

/-- Transcription of `Ledger._get_last_record_hash`: an empty file or a
blank last line yields no hash, a malformed last line raises
`LedgerError("Ledger corrupted")`, and a record line yields its
`record_hash`. -/
def getLastRecordHash (lines : List Line) : Except String (Option String) :=
  match lines.getLast? with
  | none => Except.ok none
  | some Line.blank => Except.ok none
  | some Line.malformed => Except.error "Ledger corrupted"
  | some (Line.record r) => Except.ok (some r.record_hash)

/-- Inputs of one `Ledger.append_record` call; `timestamp` is the ISO-8601
rendering of the `datetime.utcnow()` taken during the call. -/
structure AppendInput where
  batch_id : String
  timestamp : String
  file_id : String
  document_metadata : DocumentMetadataSummary
  validation_result : ValidationResultSummary
deriving DecidableEq

/-- The record assembled inside `Ledger.append_record` from its inputs and
the tail hash: content with the given `previous_hash`, and `record_hash`
computed by `_compute_record_hash`. -/
def mkLedgerRecord (H : String → String) (inp : AppendInput)
    (previous_hash : Option String) : LedgerRecord :=
  let content : RecordContent :=
    { batch_id := inp.batch_id
      timestamp := inp.timestamp
      file_id := inp.file_id
      document_metadata := inp.document_metadata
      validation_result := inp.validation_result
      previous_hash := previous_hash }
  { content := content, record_hash := computeRecordHash H content }

/-- The awaited I/O steps of `Ledger.append_record`, in program order:
reading the tail hash, writing the temp file, appending the temp file's
content to the ledger, and removing the temp file. -/
inductive AppendStep where
  | readTail : AppendStep
  | writeTemp : AppendStep
  | writeLedger : AppendStep
  | removeTemp : AppendStep
deriving DecidableEq

/-- Transcription of `Ledger.append_record` with an explicit failure
schedule: `fails s = true` means the I/O call of step `s` raises.  The
`try`/`except` of the source turns any raised exception into
`LedgerError("Failed to append record")`; the returned state keeps every
write completed before the failing step.  Each I/O call is atomic in the
model, so the ledger write either appends the full line or nothing. -/
def appendRecordRun (H : String → String) (fails : AppendStep → Bool)
    (inp : AppendInput) (st : FsState) : FsState × Except String LedgerRecord :=
  if fails AppendStep.readTail then (st, Except.error "Failed to append record")
  else
    match getLastRecordHash st.ledger with
    | Except.error _ => (st, Except.error "Failed to append record")
    | Except.ok previous_hash =>
      let record := mkLedgerRecord H inp previous_hash
      if fails AppendStep.writeTemp then (st, Except.error "Failed to append record")
      else
        let st1 : FsState := { st with temp := some record }
        if fails AppendStep.writeLedger then (st1, Except.error "Failed to append record")
        else
          let st2 : FsState := { st1 with ledger := st1.ledger ++ [Line.record record] }
          if fails AppendStep.removeTemp then (st2, Except.error "Failed to append record")
          else ({ st2 with temp := none }, Except.ok record)

/-- An `append_record` call in which every I/O step succeeds. -/
def appendRecord (H : String → String) (inp : AppendInput) (st : FsState) :
    FsState × Except String LedgerRecord :=
  appendRecordRun H (fun _ => false) inp st

/-- Sequential execution of `append_record` calls, stopping with `none` as
soon as one of them raises. -/
def appendSeq (H : String → String) : List AppendInput → FsState → Option FsState
  | [], st => some st
  | inp :: rest, st =>
    match appendRecord H inp st with
    | (st1, Except.ok _) => appendSeq H rest st1
    | (_, Except.error _) => none

/-- The pure hash chain that sequential appends are expected to build: each
record links to the previous one through `previous_hash`, starting from
`prev`. -/
def buildChain (H : String → String) (prev : Option String) :
    List AppendInput → List LedgerRecord
  | [] => []
  | inp :: rest =>
    let r := mkLedgerRecord H inp prev
    r :: buildChain H (some r.record_hash) rest

/-- Hash of the last record of a list, falling back to `prev` when the list
is empty: the value `_get_last_record_hash` observes after those records have
been appended behind a tail hash `prev`. -/
def tailHash (prev : Option String) : List LedgerRecord → Option String
  | [] => prev
  | r :: rest => tailHash (some r.record_hash) rest

/-- Boolean well-formedness of a hash chain whose first record must link to
`prev`: every record's `record_hash` is the hash of its content and every
record's `previous_hash` is the `record_hash` of its predecessor. -/
def isChain (H : String → String) (prev : Option String) :
    List LedgerRecord → Bool
  | [] => true
  | r :: rest =>
    decide (r.content.previous_hash = prev) &&
      decide (r.record_hash = computeRecordHash H r.content) &&
      isChain H (some r.record_hash) rest

/-- Report produced by `Ledger.verify_integrity`
(`LedgerIntegrityReport` in `app/schemas/ledger.py`). -/
structure LedgerIntegrityReport where
  is_valid : Bool
  total_records : Nat
  checked_records : Nat
  first_invalid_record : Option Nat
  error_message : Option String
deriving DecidableEq

/-- Loop body of `Ledger.verify_integrity`: `lineNum` lines and `total`
parsed records have been consumed so far, and `prev` is the `record_hash` of
the last record seen.  Blank lines are skipped, a malformed line or a hash or
chain mismatch stops the scan with the current 1-based line number, and a
fully consumed file yields a valid report. -/
def verifyLoop (H : String → String) :
    List Line → Nat → Nat → Option String → LedgerIntegrityReport
  | [], _, total, _ =>
    { is_valid := true, total_records := total, checked_records := total
      first_invalid_record := none, error_message := none }
  | l :: rest, lineNum, total, prev =>
    let n := lineNum + 1
    match l with
    | Line.blank => verifyLoop H rest n total prev
    | Line.malformed =>
      { is_valid := false, total_records := total, checked_records := total
        first_invalid_record := some n
        error_message := some ("Malformed JSON at line " ++ toString n) }
    | Line.record r =>
      let t := total + 1
      if r.record_hash ≠ computeRecordHash H r.content then
        { is_valid := false, total_records := t, checked_records := t
          first_invalid_record := some n
          error_message := some ("Record hash mismatch at line " ++ toString n) }
      else if r.content.previous_hash ≠ prev then
        { is_valid := false, total_records := t, checked_records := t
          first_invalid_record := some n
          error_message := some ("Hash chain broken at line " ++ toString n) }
      else verifyLoop H rest n t (some r.record_hash)

/-- Transcription of `Ledger.verify_integrity`: scan the whole file from the
beginning with line counter, record counter and running previous hash all
starting empty. -/
def verifyIntegrity (H : String → String) (lines : List Line) :
    LedgerIntegrityReport :=
  verifyLoop H lines 0 0 none

/-! ### Bulk recent read (`Ledger.get_all_records`) -/

/-- Python slice `lines[-limit:]` for an `int` limit: for a positive limit,
the last `limit` lines (the whole list when `limit` exceeds its length); for
`limit = 0`, the index `-0` is `0`, so the slice is the whole list; for a
negative limit, the slice starts at the positive index `-limit`. -/
def pySliceLast (lines : List Line) (limit : Int) : List Line :=
  if 0 < limit then lines.drop (lines.length - limit.toNat)
  else lines.drop (-limit).toNat

/-- Transcription of `Ledger.get_all_records`: walk `lines[-limit:]` in
reverse, skip blank lines, skip lines on which `json.loads` raises, and
collect the parsed records in encounter order (newest first). -/
def getAllRecords (lines : List Line) (limit : Int) : List LedgerRecord :=
  ((pySliceLast lines limit).reverse).foldl
    (fun records l =>
      match l with
      | Line.record r => records ++ [r]
      | Line.blank => records
      | Line.malformed => records) []

/-! ### Entity normalizers (`VerificationService._normalize_scalar`,
`_normalize_dates`, `_choose_consensus`, `_entity_node_id`) -/

/-- Python `str.strip()` with no argument: drop leading and trailing
whitespace characters. -/
def pyStrip (s : String) : String :=
  String.mk (((s.data.dropWhile Char.isWhitespace).reverse.dropWhile
    Char.isWhitespace).reverse)

/-- Accumulating worker for `str.split()`: `acc` holds the characters of
the current word in reverse. -/
def pySplitAux : List Char → List Char → List String
  | [], acc => if acc = [] then [] else [String.mk acc.reverse]
  | c :: cs, acc =>
    if c.isWhitespace then
      if acc = [] then pySplitAux cs [] else String.mk acc.reverse :: pySplitAux cs []
    else pySplitAux cs (c :: acc)

/-- Python `str.split()` with no argument: split on runs of whitespace,
discarding empty chunks. -/
def pySplit (s : String) : List String :=
  pySplitAux s.data []

/-- Python `str.lower()`, character-wise case folding (ASCII range, which
covers every value the claims touch). -/
def pyLower (s : String) : String :=
  String.mk (s.data.map Char.toLower)

/-- Transcription of `VerificationService._normalize_scalar`: collapse
whitespace, return the lower-cased comparison key and the cleaned display
value, or nothing when the input is absent or blank. -/
def normalizeScalar : Option String → Option String × Option String
  | none => (none, none)
  | some v =>
    let cleaned := String.intercalate " " (pySplit (pyStrip v))
    if cleaned = "" then (none, none)
    else (some (pyLower cleaned), some cleaned)

/-- First-occurrence deduplication helper, `seen` being the values already
kept (the behaviour of Python `dict.fromkeys` keys). -/
def dedupFirstAux (seen : List String) : List String → List String
  | [] => []
  | x :: xs =>
    if x ∈ seen then dedupFirstAux seen xs
    else x :: dedupFirstAux (x :: seen) xs

/-- First-occurrence deduplication, as `list(dict.fromkeys(cleaned))`. -/
def dedupFirst (xs : List String) : List String :=
  dedupFirstAux [] xs

/-- Code-point lexicographic strict order on character lists, the order
Python uses to compare strings. -/
def pyCharsLt : List Char → List Char → Bool
  | [], [] => false
  | [], _ :: _ => true
  | _ :: _, [] => false
  | a :: as, b :: bs =>
    if a.toNat < b.toNat then true
    else if b.toNat < a.toNat then false
    else pyCharsLt as bs

/-- Python `a < b` on strings. -/
def pyStrLt (a b : String) : Bool :=
  pyCharsLt a.data b.data

/-- Python `a <= b` on strings, as the negation of the reverse strict
comparison. -/
def pyStrLe (a b : String) : Bool :=
  !pyStrLt b a

/-- Insertion into a sorted list under the code-point lexicographic order
that Python `sorted` uses on strings. -/
def insertSorted (x : String) : List String → List String
  | [] => [x]
  | y :: ys => if pyStrLe x y then x :: y :: ys else y :: insertSorted x ys

/-- Sorting by insertion; on duplicate-free input this is exactly Python
`sorted`. -/
def sortStrings (xs : List String) : List String :=
  xs.foldr insertSorted []

/-- Transcription of `VerificationService._normalize_dates`: drop blanks,
deduplicate keeping first occurrences, sort the unique values for the
comparison key joined with `|`, and join them in encountered order with
`, ` for display. -/
def normalizeDates (dates : List String) : Option String × Option String :=
  if dates = [] then (none, none)
  else
    let cleaned := (dates.map pyStrip).filter fun d => d != ""
    if cleaned = [] then (none, none)
    else
      let unique := dedupFirst cleaned
      (some (String.intercalate "|" (sortStrings unique)),
        some (String.intercalate ", " unique))

/-- Ranking used by `VerificationService._choose_consensus`: `a` sorts
strictly before `b` under the key `(-count, value)`, i.e. `a` has the higher
occurrence count, or equal counts and `a` is lexicographically smaller. -/
def ranksBefore (values : List String) (a b : String) : Bool :=
  decide (values.count b < values.count a) ||
    (decide (values.count a = values.count b) && pyStrLt a b)

/-- Transcription of `VerificationService._choose_consensus`: no value for
an empty list, otherwise the first element of the distinct values sorted by
`(-count, value)` — the most frequent value, ties broken by lexicographic
order. -/
def chooseConsensus (values : List String) : Option String :=
  match dedupFirst values with
  | [] => none
  | k :: ks =>
    some (ks.foldl (fun best cand => if ranksBefore values cand best then cand else best) k)

/-- Transcription of `VerificationService._entity_node_id`; `H1` stands for
`hashlib.sha1(...).hexdigest()`, of which the first ten characters are kept.
-/
def entityNodeIdOf (H1 : String → String) (fieldName norm : String) : String :=
  if norm = "__missing__" then "entity:" ++ fieldName ++ ":missing"
  else "entity:" ++ fieldName ++ ":" ++ (H1 (fieldName ++ ":" ++ norm)).take 10

/-! ### Consistency graph (`VerificationService.get_consistency_graph`) -/

/-- Node of the consistency graph (`GraphNode` in
`app/schemas/consistency_graph.py`); `metadata` is a small string-to-string
dict. -/
structure GraphNode where
  id : String
  label : String
  node_type : String
  metadata : List (String × String)
deriving DecidableEq

/-- Edge of the consistency graph (`GraphEdge`). -/
structure GraphEdge where
  id : String
  source : String
  target : String
  type : String
  field_name : String
  explanation : String
deriving DecidableEq

/-- The graph payload (`ConsistencyGraphResponse`). -/
structure ConsistencyGraphResponse where
  shipment_id : String
  nodes : List GraphNode
  edges : List GraphEdge
deriving DecidableEq

/-- The five tracked fields, in the order the source lists them. -/
def trackedFields : List String :=
  ["batch_id", "exporter", "quantity", "dates", "certificate_id"]

/-- Per-document normalized values: one `(normalized, display)` pair per
tracked field (the `doc_values` dict of the source). -/
structure DocValues where
  batchId : Option String × Option String
  exporter : Option String × Option String
  quantity : Option String × Option String
  dates : Option String × Option String
  certificateId : Option String × Option String
deriving DecidableEq

/-- Lookup of a tracked field in a `DocValues`. -/
def DocValues.get (d : DocValues) : String → Option String × Option String
  | "batch_id" => d.batchId
  | "exporter" => d.exporter
  | "quantity" => d.quantity
  | "dates" => d.dates
  | "certificate_id" => d.certificateId
  | _ => (none, none)

/-- Normalized values of one record: the scalar fields through
`_normalize_scalar` and the date set through `_normalize_dates`, exactly as
the per-record loop of `get_consistency_graph` fills `doc_values`. -/
def docValuesOf (r : LedgerRecord) : DocValues :=
  { batchId := normalizeScalar r.entities.batch_id
    exporter := normalizeScalar r.entities.exporter
    quantity := normalizeScalar r.entities.quantity
    dates := normalizeDates r.entities.dates
    certificateId := normalizeScalar r.entities.certificate_id }

/-- Initial cohort selection: records whose own `batch_id` equals the
shipment id or whose `extracted_entities.batch_id` equals it (the
`matching_records` comprehension of the source). -/
def initialMatches (all : List LedgerRecord) (sid : String) : List LedgerRecord :=
  all.filter fun r => r.batch_id == sid || r.entities.batch_id == some sid

/-- The `grouped_batch_ids` set: the distinct truthy
`extracted_entities.batch_id` values of the selected records.  Note the
Python truthiness test drops the empty string as well as `None`. -/
def groupedBatchIds (matching : List LedgerRecord) : List String :=
  dedupFirst (matching.filterMap fun r =>
    match r.entities.batch_id with
    | some s => if s = "" then none else some s
    | none => none)

/-- The single expansion pass over `all_records`: a record not already in
the cohort is appended when its `extracted_entities.batch_id` lies in the
`grouped_batch_ids` set computed from the initial matches.  The `if
grouped_batch_ids:` guard of the source skips the loop for an empty set. -/
def expandCohort (all matching : List LedgerRecord) : List LedgerRecord :=
  let grouped := groupedBatchIds matching
  if grouped = [] then matching
  else
    all.foldl
      (fun acc r =>
        if r ∈ acc then acc
        else
          match r.entities.batch_id with
          | some s => if s ∈ grouped then acc ++ [r] else acc
          | none => acc)
      matching

/-- The full cohort used by `get_consistency_graph` for a shipment id:
initial matches plus the one-hop expansion. -/
def matchingRecords (all : List LedgerRecord) (sid : String) : List LedgerRecord :=
  expandCohort all (initialMatches all sid)

/-- Normalized values collected for one tracked field across the cohort, in
record order (the `field_values[field]` list of the source): one entry per
record that has a value for the field. -/
def fieldValuesOf (cohort : List LedgerRecord) (f : String) : List String :=
  cohort.filterMap fun r => ((docValuesOf r).get f).1

/-- Consensus value of a tracked field over the cohort. -/
def consensusOf (cohort : List LedgerRecord) (f : String) : Option String :=
  chooseConsensus (fieldValuesOf cohort f)

/-- Insertion or overwrite of a key (Python dict assignment). -/
def upsert (k v : String) : List (String × String) → List (String × String)
  | [] => [(k, v)]
  | (k0, v0) :: rest => if k0 = k then (k, v) :: rest else (k0, v0) :: upsert k v rest

/-- The `display_values[field]` dict: normalized value to display value,
later records overwriting earlier entries for the same key, the stored
display defaulting to the normalized value (`display or normalized`). -/
def displayValuesOf (cohort : List LedgerRecord) (f : String) :
    List (String × String) :=
  cohort.foldl
    (fun acc r =>
      match (docValuesOf r).get f with
      | (some n, d) => upsert n (d.getD n) acc
      | (none, _) => acc)
    []

/-- Python `dict.get(k, d)` on a string dict. -/
def lookupOr (m : List (String × String)) (k d : String) : String :=
  match m.find? fun p => p.1 == k with
  | some p => p.2
  | none => d

/-- Insertion or overwrite in the `per_doc_values` dict, which is keyed by
the record's ledger `batch_id`. -/
def upsertDoc (k : String) (v : DocValues) :
    List (String × DocValues) → List (String × DocValues)
  | [] => [(k, v)]
  | (k0, v0) :: rest => if k0 = k then (k, v) :: rest else (k0, v0) :: upsertDoc k v rest

/-- The `per_doc_values` dict of the source: normalized values keyed by each
record's ledger `batch_id`; a later record with the same `batch_id`
overwrites the earlier entry. -/
def perDocValuesOf (cohort : List LedgerRecord) : List (String × DocValues) :=
  cohort.foldl (fun acc r => upsertDoc r.batch_id (docValuesOf r) acc) []

/-- Empty per-document values (never hit on keys of cohort records, which
are always present in the dict). -/
def emptyDocValues : DocValues :=
  { batchId := (none, none), exporter := (none, none), quantity := (none, none)
    dates := (none, none), certificateId := (none, none) }

/-- Lookup `per_doc_values[record.batch_id]`. -/
def perDocLookup (m : List (String × DocValues)) (k : String) : DocValues :=
  match m.find? fun p => p.1 == k with
  | some p => p.2
  | none => emptyDocValues

/-- A single quote character, used inside the explanation sentences. -/
def sq : String :=
  String.singleton (Char.ofNat 39)

/-- Data computed for the edge of one (record, field) pair: the entity key
and label of the target node, the edge type and the explanation sentence. -/
structure EdgeParts where
  entityNorm : String
  entityLabel : String
  edgeType : String
  explanation : String
deriving DecidableEq

/-- The per-field branch of the edge loop in `get_consistency_graph`: a
missing normalized value yields the `__missing__` sentinel and a MISMATCH
edge; a present value yields MATCH when there is no consensus or when it
equals the consensus, and MISMATCH otherwise.  `perDoc`, `consensus` and
`displays` are the dicts computed over the whole cohort. -/
def edgePartsFor (perDoc : List (String × DocValues))
    (consensus : String → Option String)
    (displays : String → List (String × String))
    (r : LedgerRecord) (f : String) : EdgeParts :=
  match (perDocLookup perDoc r.batch_id).get f with
  | (none, _) =>
    { entityNorm := "__missing__"
      entityLabel := "Missing " ++ f
      edgeType := "MISMATCH"
      explanation := f ++ " was not extracted from document " ++ sq ++
        r.content.document_metadata.original_filename ++ sq ++ "." }
  | (some n, d) =>
    let label := d.getD n
    match consensus f with
    | none =>
      { entityNorm := n, entityLabel := label, edgeType := "MATCH"
        explanation := "Only one value for " ++ f ++
          " is available in this shipment group." }
    | some expected =>
      if n = expected then
        { entityNorm := n, entityLabel := label, edgeType := "MATCH"
          explanation := f ++ " matches shipment value " ++ sq ++
            lookupOr (displays f) expected expected ++ sq ++ "." }
      else
        { entityNorm := n, entityLabel := label, edgeType := "MISMATCH"
          explanation := f ++ " value " ++ sq ++ label ++ sq ++
            " does not match shipment value " ++ sq ++
            lookupOr (displays f) expected expected ++ sq ++ "." }

/-- Accumulator of the node/edge emission loop: the node list, the
`node_ids` set, and the edge list. -/
structure GraphAcc where
  nodes : List GraphNode
  nodeIds : List String
  edges : List GraphEdge
deriving DecidableEq

/-- The edge emitted for one (record, field) pair, with its id
`edge:{batch_id}:{field}`, its source document node and its target entity
node. -/
def edgeFor (H1 : String → String) (perDoc : List (String × DocValues))
    (consensus : String → Option String)
    (displays : String → List (String × String))
    (r : LedgerRecord) (f : String) : GraphEdge :=
  let p := edgePartsFor perDoc consensus displays r f
  { id := "edge:" ++ r.batch_id ++ ":" ++ f
    source := "document:" ++ r.batch_id
    target := entityNodeIdOf H1 f p.entityNorm
    type := p.edgeType
    field_name := f
    explanation := p.explanation }

/-- Body of the inner per-field emission loop for one cohort record: add
the entity node of the (field, value) pair unless its id was already seen,
then append the edge of the pair. -/
def processField (H1 : String → String) (perDoc : List (String × DocValues))
    (consensus : String → Option String)
    (displays : String → List (String × String))
    (r : LedgerRecord) (acc : GraphAcc) (f : String) : GraphAcc :=
  let p := edgePartsFor perDoc consensus displays r f
  let entityNodeId := entityNodeIdOf H1 f p.entityNorm
  let acc3 :=
    if entityNodeId ∈ acc.nodeIds then acc
    else
      { acc with
        nodes := acc.nodes ++
          [{ id := entityNodeId, label := p.entityLabel
             node_type := "entity"
             metadata := [("field_name", f), ("value", p.entityLabel)] }]
        nodeIds := acc.nodeIds ++ [entityNodeId] }
  { acc3 with edges := acc3.edges ++ [edgeFor H1 perDoc consensus displays r f] }

/-- Body of the outer emission loop for one cohort record: add its document
node unless the id was already seen, then run the per-field loop. -/
def processRecord (H1 : String → String) (perDoc : List (String × DocValues))
    (consensus : String → Option String)
    (displays : String → List (String × String))
    (acc : GraphAcc) (r : LedgerRecord) : GraphAcc :=
  let docNodeId := "document:" ++ r.batch_id
  let acc1 :=
    if docNodeId ∈ acc.nodeIds then acc
    else
      { acc with
        nodes := acc.nodes ++
          [{ id := docNodeId
             label := r.content.document_metadata.original_filename
             node_type := "document"
             metadata := [("record_batch_id", r.batch_id),
               ("timestamp", r.content.timestamp)] }]
        nodeIds := acc.nodeIds ++ [docNodeId] }
  trackedFields.foldl (processField H1 perDoc consensus displays r) acc1

/-- The edge the graph builder emits for a (record, field) pair within a
given cohort, with the per-cohort dicts spelled out. -/
def cohortEdge (H1 : String → String) (cohort : List LedgerRecord)
    (r : LedgerRecord) (f : String) : GraphEdge :=
  edgeFor H1 (perDocValuesOf cohort) (fun x => consensusOf cohort x)
    (fun x => displayValuesOf cohort x) r f

/-- Transcription of `VerificationService.get_consistency_graph` given the
records read from the ledger (`get_all_records(limit=10000)` output): select
the cohort, raise `ValueError` when it is empty, compute the per-field
dicts, and run the emission loop over the cohort. -/
def getConsistencyGraphOf (H1 : String → String) (allRecords : List LedgerRecord)
    (shipmentId : String) : Except String ConsistencyGraphResponse :=
  let matching := matchingRecords allRecords shipmentId
  if matching = [] then Except.error ("Shipment not found: " ++ shipmentId)
  else
    let perDoc := perDocValuesOf matching
    let consensus := fun f => consensusOf matching f
    let displays := fun f => displayValuesOf matching f
    let acc := matching.foldl (processRecord H1 perDoc consensus displays)
      { nodes := [], nodeIds := [], edges := [] }
    Except.ok { shipment_id := shipmentId, nodes := acc.nodes, edges := acc.edges }

/-- The full service call: read the most recent ten thousand ledger lines
through `get_all_records` and build the graph from them. -/
def getConsistencyGraph (H1 : String → String) (lines : List Line)
    (shipmentId : String) : Except String ConsistencyGraphResponse :=
  getConsistencyGraphOf H1 (getAllRecords lines 10000) shipmentId

/-- Entity fields used by concrete witnesses: all absent. -/
def wEnt : ExtractedEntityFields :=
  { batch_id := none, exporter := none, quantity := none, dates := []
    certificate_id := none }

/-- Document metadata used by concrete witnesses. -/
def wDoc : DocumentMetadataSummary :=
  { original_filename := "a.pdf", file_size := 1, document_type := "invoice"
    mime_type := "application/pdf", extracted_entities := wEnt }

/-- Validation summary used by concrete witnesses. -/
def wVal : ValidationResultSummary :=
  { fraud_score := 0, risk_level := "LOW", is_anomaly := false
    rule_violation_count := 0 }

/-- First concrete append input. -/
def wInp1 : AppendInput :=
  { batch_id := "B1", timestamp := "t1", file_id := "f1"
    document_metadata := wDoc, validation_result := wVal }

/-- Second concrete append input. -/
def wInp2 : AppendInput :=
  { batch_id := "B2", timestamp := "t2", file_id := "f2"
    document_metadata := wDoc, validation_result := wVal }

/-- A concrete hash function for witnesses (hash-value comparisons only ever
test equality, so a constant function keeps evaluation small). -/
def cH : String → String := fun _ => "h"

/-- The state reached by two successful appends from the empty ledger under
`cH`. -/
def wSt2 : FsState :=
  match appendSeq cH [wInp1, wInp2] ⟨[], none⟩ with
  | some st => st
  | none => ⟨[], none⟩

/-- The first record of `wSt2`. -/
def wRec1 : LedgerRecord :=
  match recordsOf wSt2.ledger with
  | r :: _ => r
  | [] => mkLedgerRecord cH wInp1 none

/-- The second record of `wSt2`. -/
def wRec2 : LedgerRecord :=
  match recordsOf wSt2.ledger with
  | _ :: r :: _ => r
  | _ => mkLedgerRecord cH wInp2 none

/-- Result of changing one byte inside the persisted line of record `r`:
the line no longer parses, or it parses to a record with the same content
but a different stored `record_hash` (the byte lay inside the `record_hash`
field), or to a record with different content but the same stored
`record_hash` (the byte lay inside one of the other fields; the last case
carries the no-collision fact that the two distinct contents hash
differently, which for SHA-256 is the collision-resistance assumption). -/
def tamperOf (H : String → String) (r : LedgerRecord) (l : Line) : Prop :=
  l = Line.malformed ∨
  (∃ h1, l = Line.record ⟨r.content, h1⟩ ∧ h1 ≠ r.record_hash) ∨
  (∃ c1, l = Line.record ⟨c1, r.record_hash⟩ ∧ c1 ≠ r.content ∧
    H (canonicalJson c1) ≠ H (canonicalJson r.content))

/-- Two concurrent `append_record` calls interleaved at their await points
under the schedule: task A awaits `_get_last_record_hash`, then task B
awaits `_get_last_record_hash` (observing the same tail, since A has not
written yet), then A stages its temp file and appends its line, then B
stages its temp file and appends its line.  `append_record` takes no lock,
so nothing in the source prevents this schedule. -/
def twoAppendsInterleaved (H : String → String) (a b : AppendInput)
    (st0 : FsState) : FsState :=
  match getLastRecordHash st0.ledger with
  | Except.error _ => st0
  | Except.ok p =>
    let rA := mkLedgerRecord H a p
    let rB := mkLedgerRecord H b p
    { ledger := st0.ledger ++ [Line.record rA, Line.record rB], temp := none }

/-- Failure schedule in which only the final `aiofiles.os.remove` of the
temp file raises. -/
def wFailRemove : AppendStep → Bool :=
  fun s => s == AppendStep.removeTemp

/-- Entity fields of the C7 counterexample record: an exporter and a
quantity are present, `certificate_id` (among others) is absent. -/
def c7ent : ExtractedEntityFields :=
  { batch_id := none, exporter := some "Acme", quantity := some "5"
    dates := [], certificate_id := none }

/-- The single cohort record of the C7 counterexample. -/
def c7rec : LedgerRecord :=
  { content :=
      { batch_id := "S", timestamp := "t1", file_id := "f1"
        document_metadata :=
          { original_filename := "a.pdf", file_size := 1
            document_type := "invoice", mime_type := "application/pdf"
            extracted_entities := c7ent }
        validation_result := wVal, previous_hash := none }
    record_hash := "h1" }

/-- Graph built for the C7 counterexample cohort. -/
def c7graph : ConsistencyGraphResponse :=
  match getConsistencyGraphOf id [c7rec] "S" with
  | Except.ok g => g
  | Except.error _ => { shipment_id := "", nodes := [], edges := [] }

/-- First C8 counterexample record, ledger `batch_id` "S". -/
def c8recA : LedgerRecord :=
  { content :=
      { batch_id := "S", timestamp := "t1", file_id := "f1"
        document_metadata :=
          { original_filename := "a.pdf", file_size := 1
            document_type := "invoice", mime_type := "application/pdf"
            extracted_entities :=
              { batch_id := none, exporter := some "Acme", quantity := none
                dates := [], certificate_id := none } }
        validation_result := wVal, previous_hash := none }
    record_hash := "ha" }

/-- Second C8 counterexample record, sharing the ledger `batch_id` "S". -/
def c8recB : LedgerRecord :=
  { content :=
      { batch_id := "S", timestamp := "t2", file_id := "f2"
        document_metadata :=
          { original_filename := "b.pdf", file_size := 2
            document_type := "invoice", mime_type := "application/pdf"
            extracted_entities :=
              { batch_id := none, exporter := some "Bcme", quantity := none
                dates := [], certificate_id := none } }
        validation_result := wVal, previous_hash := some "ha" }
    record_hash := "hb" }

/-- Graph built for the C8 counterexample cohort of two records that share
one ledger `batch_id`. -/
def c8graph : ConsistencyGraphResponse :=
  match getConsistencyGraphOf id [c8recA, c8recB] "S" with
  | Except.ok g => g
  | Except.error _ => { shipment_id := "", nodes := [], edges := [] }

/-- C9 counterexample record matched initially (its own `batch_id` is the
shipment id) whose extracted `batch_id` is the empty string. -/
def c9recA : LedgerRecord :=
  { content :=
      { batch_id := "S", timestamp := "t1", file_id := "f1"
        document_metadata :=
          { original_filename := "a.pdf", file_size := 1
            document_type := "invoice", mime_type := "application/pdf"
            extracted_entities :=
              { batch_id := some "", exporter := none, quantity := none
                dates := [], certificate_id := none } }
        validation_result := wVal, previous_hash := none }
    record_hash := "ha" }

/-- C9 counterexample record that shares the empty-string extracted
`batch_id` but matches the shipment id in no other way. -/
def c9recB : LedgerRecord :=
  { content :=
      { batch_id := "X", timestamp := "t2", file_id := "f2"
        document_metadata :=
          { original_filename := "b.pdf", file_size := 2
            document_type := "invoice", mime_type := "application/pdf"
            extracted_entities :=
              { batch_id := some "", exporter := none, quantity := none
                dates := [], certificate_id := none } }
        validation_result := wVal, previous_hash := some "ha" }
    record_hash := "hb" }

/-- The set the claim describes for the expansion pass, rendered from its
words: the distinct non-null `extracted_entities.batch_id` values of the
initially selected records (membership formulation; distinctness is
irrelevant to membership).  Unlike the code's `grouped_batch_ids`, this set
keeps the empty string. -/
def specGroupedIds (all : List LedgerRecord) (sid : String) : List String :=
  (initialMatches all sid).filterMap fun r => r.entities.batch_id

/-- Cohort membership exactly as claim C9 words it: initially selected (own
`batch_id` or extracted `batch_id` equals the shipment id), or reachable in
the single expansion pass through the set of distinct non-null extracted
`batch_id` values of the initially selected records. -/
def specCohortMember (all : List LedgerRecord) (sid : String)
    (r : LedgerRecord) : Prop :=
  r ∈ all ∧ (r.batch_id = sid ∨ r.entities.batch_id = some sid ∨
    ∃ b, r.entities.batch_id = some b ∧ b ∈ specGroupedIds all sid)

/-- Parse result of one line, as `get_all_records` sees it. -/
def lineRecordOf : Line → Option LedgerRecord
  | Line.record r => some r
  | Line.blank => none
  | Line.malformed => none

/-- The last `n` raw lines of a file, rendered from the claim's words
(take `n` from the reversed file, then restore file order). -/
def lastLines (n : Nat) (lines : List Line) : List Line :=
  (lines.reverse.take n).reverse

/-- A concrete record line for the C10 counterexample. -/
def c10rec : LedgerRecord :=
  mkLedgerRecord cH wInp1 none

/-! ### Chain lemmas -/

theorem tailHash_concat (prev : Option String) (rs : List LedgerRecord)
    (r : LedgerRecord) : tailHash prev (rs ++ [r]) = some r.record_hash := by
  induction rs generalizing prev with
  | nil => rfl
  | cons x xs ih => simpa [tailHash] using ih (some x.record_hash)

theorem getLastRecordHash_map (rs : List LedgerRecord) :
    getLastRecordHash (rs.map Line.record) = Except.ok (tailHash none rs) := by
  induction rs with
  | nil => rfl
  | cons x xs ih =>
    cases xs with
    | nil => rfl
    | cons y ys =>
      simpa [getLastRecordHash, List.getLast?_cons_cons, tailHash] using ih

theorem recordsOf_map (rs : List LedgerRecord) :
    recordsOf (rs.map Line.record) = rs := by
  induction rs with
  | nil => rfl
  | cons x xs ih => simpa [recordsOf] using ih

theorem appendRecord_map (H : String → String) (inp : AppendInput)
    (rs : List LedgerRecord) (t : Option LedgerRecord) :
    appendRecord H inp ⟨rs.map Line.record, t⟩ =
      (⟨(rs ++ [mkLedgerRecord H inp (tailHash none rs)]).map Line.record, none⟩,
        Except.ok (mkLedgerRecord H inp (tailHash none rs))) := by
  simp [appendRecord, appendRecordRun, getLastRecordHash_map]

theorem appendSeq_map (H : String → String) (inps : List AppendInput) :
    ∀ (rs : List LedgerRecord) (t : Option LedgerRecord),
      ∃ t1, appendSeq H inps ⟨rs.map Line.record, t⟩ =
        some ⟨(rs ++ buildChain H (tailHash none rs) inps).map Line.record, t1⟩ := by
  induction inps with
  | nil => intro rs t; exact ⟨t, by simp [appendSeq, buildChain]⟩
  | cons i is ih =>
    intro rs t
    obtain ⟨t1, h1⟩ := ih (rs ++ [mkLedgerRecord H i (tailHash none rs)]) none
    rw [tailHash_concat] at h1
    refine ⟨t1, ?_⟩
    simp only [appendSeq, appendRecord_map]
    rw [h1]
    simp [buildChain]

theorem buildChain_length (H : String → String) (inps : List AppendInput) :
    ∀ prev, (buildChain H prev inps).length = inps.length := by
  induction inps with
  | nil => intro prev; rfl
  | cons i is ih => intro prev; simpa [buildChain] using ih _

theorem isChain_buildChain (H : String → String) (inps : List AppendInput) :
    ∀ prev, isChain H prev (buildChain H prev inps) = true := by
  induction inps with
  | nil => intro prev; rfl
  | cons i is ih =>
    intro prev
    simpa [buildChain, isChain, mkLedgerRecord] using ih _

theorem isChain_head (H : String → String) (prev : Option String)
    (x : LedgerRecord) (xs : List LedgerRecord)
    (h : isChain H prev (x :: xs) = true) : x.content.previous_hash = prev := by
  simp only [isChain, Bool.and_eq_true, decide_eq_true_eq] at h
  exact h.1.1

theorem isChain_tail (H : String → String) (prev : Option String)
    (x : LedgerRecord) (xs : List LedgerRecord)
    (h : isChain H prev (x :: xs) = true) :
    isChain H (some x.record_hash) xs = true := by
  simp only [isChain, Bool.and_eq_true, decide_eq_true_eq] at h
  exact h.2

theorem isChain_hash_eq (H : String → String) (rs : List LedgerRecord) :
    ∀ prev, isChain H prev rs = true →
      ∀ r ∈ rs, r.record_hash = computeRecordHash H r.content := by
  induction rs with
  | nil => intro prev _ r hr; cases hr
  | cons x xs ih =>
    intro prev h r hr
    have hx := h
    simp only [isChain, Bool.and_eq_true, decide_eq_true_eq] at hx
    rcases List.mem_cons.mp hr with rfl | hr
    · exact hx.1.2
    · exact ih _ hx.2 r hr

theorem isChain_get_zero (H : String → String) (rs : List LedgerRecord)
    (prev : Option String) (h : isChain H prev rs = true)
    (hz : 0 < rs.length) : (rs.get ⟨0, hz⟩).content.previous_hash = prev := by
  cases rs with
  | nil => cases hz
  | cons x xs => exact isChain_head H prev x xs h

theorem isChain_get_succ (H : String → String) (rs : List LedgerRecord) :
    ∀ prev, isChain H prev rs = true →
      ∀ i (hi : i + 1 < rs.length),
        (rs.get ⟨i + 1, hi⟩).content.previous_hash =
          some ((rs.get ⟨i, Nat.lt_of_succ_lt hi⟩).record_hash) := by
  induction rs with
  | nil => intro prev _ i hi; cases hi
  | cons x xs ih =>
    intro prev h i hi
    cases i with
    | zero =>
      have hx : 0 < xs.length := Nat.lt_of_succ_lt_succ hi
      simpa using isChain_get_zero H xs (some x.record_hash) (isChain_tail H prev x xs h) hx
    | succ j =>
      have hj : j + 1 < xs.length := Nat.lt_of_succ_lt_succ hi
      simpa using ih _ (isChain_tail H prev x xs h) j hj

/-- State reached by a list of successful sequential appends from the empty
ledger: the pure `buildChain` rendered as record lines. -/
theorem appendSeq_ledger (H : String → String) (inps : List AppendInput)
    (st : FsState) (h : appendSeq H inps ⟨[], none⟩ = some st) :
    st.ledger = (buildChain H none inps).map Line.record := by
  obtain ⟨t1, e⟩ := appendSeq_map H inps [] none
  simp only [List.map_nil, List.nil_append, tailHash] at e
  rw [h] at e
  cases Option.some.inj e
  rfl

theorem verifyLoop_chain (H : String → String) (rs : List LedgerRecord) :
    ∀ (n t : Nat) (prev : Option String), isChain H prev rs = true →
      verifyLoop H (rs.map Line.record) n t prev =
        { is_valid := true, total_records := t + rs.length
          checked_records := t + rs.length
          first_invalid_record := none, error_message := none } := by
  induction rs with
  | nil => intro n t prev _; simp [verifyLoop]
  | cons x xs ih =>
    intro n t prev h
    have hx := h
    simp only [isChain, Bool.and_eq_true, decide_eq_true_eq] at hx
    have e1 : ¬ x.record_hash ≠ computeRecordHash H x.content := by
      simpa using hx.1.2
    have e2 : ¬ x.content.previous_hash ≠ prev := by
      simpa using hx.1.1
    simp only [List.map_cons, verifyLoop, e1, if_neg, ite_false, e2,
      not_false_eq_true, not_not, if_pos, ite_true]
    rw [ih (n + 1) (t + 1) (some x.record_hash) hx.2]
    have : t + 1 + xs.length = t + (xs.length + 1) := by omega
    simp [this]

/-! ### Claim C1 -/

/-- C1: starting from an empty ledger file, any sequence of successful
sequential `append_record` calls leaves records whose count matches the
inputs, whose first record has `previous_hash` null, and in which every
later record's `previous_hash` equals the `record_hash` of its predecessor.
-/
theorem c1_append_chain_linkage (H : String → String) (inps : List AppendInput)
    (st : FsState) (h : appendSeq H inps ⟨[], none⟩ = some st) :
    (recordsOf st.ledger).length = inps.length ∧
    (∀ hz : 0 < (recordsOf st.ledger).length,
      ((recordsOf st.ledger).get ⟨0, hz⟩).content.previous_hash = none) ∧
    (∀ i (hi : i + 1 < (recordsOf st.ledger).length),
      ((recordsOf st.ledger).get ⟨i + 1, hi⟩).content.previous_hash =
        some (((recordsOf st.ledger).get ⟨i, Nat.lt_of_succ_lt hi⟩).record_hash)) := by
  have hl : recordsOf st.ledger = buildChain H none inps := by
    rw [appendSeq_ledger H inps st h, recordsOf_map]
  have hc : isChain H none (recordsOf st.ledger) = true := by
    rw [hl]; exact isChain_buildChain H inps none
  refine ⟨by rw [hl]; exact buildChain_length H inps none, ?_, ?_⟩
  · intro hz; exact isChain_get_zero H _ none hc hz
  · intro i hi; exact isChain_get_succ H _ none hc i hi

theorem c1_append_chain_linkage_witness : (recordsOf wSt2.ledger).length = 2 :=
  (c1_append_chain_linkage cH [wInp1, wInp2] wSt2 rfl).1

/-! ### Claim C2 -/

/-- C2: every record persisted by sequential appends has `record_hash` equal
to the hash of the canonical JSON of its other fields, whether recomputed
from the in-memory content at append time or from the content parsed back
from the persisted line — both are `computeRecordHash H r.content` over the
same canonical string `canonicalJson r.content`. -/
theorem c2_record_hash_recomputation (H : String → String)
    (inps : List AppendInput) (st : FsState)
    (h : appendSeq H inps ⟨[], none⟩ = some st) :
    ∀ r ∈ recordsOf st.ledger,
      computeRecordHash H r.content = r.record_hash ∧
      computeRecordHash H r.content = H (canonicalJson r.content) := by
  intro r hr
  have hl : recordsOf st.ledger = buildChain H none inps := by
    rw [appendSeq_ledger H inps st h, recordsOf_map]
  have hc : isChain H none (recordsOf st.ledger) = true := by
    rw [hl]; exact isChain_buildChain H inps none
  exact ⟨(isChain_hash_eq H _ none hc r hr).symm, rfl⟩

theorem c2_record_hash_recomputation_witness :
    computeRecordHash cH wRec1.content = wRec1.record_hash :=
  (c2_record_hash_recomputation cH [wInp1, wInp2] wSt2 rfl wRec1 (by decide)).1

/-! ### Claim C4 -/

/-- C4: `verify_integrity` on the ledger left by `K` successful sequential
appends reports a valid chain with `total_records = checked_records = K` and
no invalid record or error message. -/
theorem c4_verify_integrity_clean (H : String → String)
    (inps : List AppendInput) (st : FsState)
    (h : appendSeq H inps ⟨[], none⟩ = some st) :
    verifyIntegrity H st.ledger =
      { is_valid := true, total_records := inps.length
        checked_records := inps.length
        first_invalid_record := none, error_message := none } := by
  rw [appendSeq_ledger H inps st h]
  rw [verifyIntegrity, verifyLoop_chain H _ 0 0 none (isChain_buildChain H inps none)]
  simp [buildChain_length]

theorem c4_verify_integrity_clean_witness :
    verifyIntegrity cH wSt2.ledger =
      { is_valid := true, total_records := 2, checked_records := 2
        first_invalid_record := none, error_message := none } := by
  simpa using c4_verify_integrity_clean cH [wInp1, wInp2] wSt2 rfl

/-! ### Claim C5 -/

theorem verifyLoop_chain_prefix (H : String → String) (rs : List LedgerRecord) :
    ∀ (rest : List Line) (n t : Nat) (prev : Option String),
      isChain H prev rs = true →
      verifyLoop H (rs.map Line.record ++ rest) n t prev =
        verifyLoop H rest (n + rs.length) (t + rs.length) (tailHash prev rs) := by
  induction rs with
  | nil => intro rest n t prev _; simp [tailHash]
  | cons x xs ih =>
    intro rest n t prev h
    have hx := h
    simp only [isChain, Bool.and_eq_true, decide_eq_true_eq] at hx
    have e1 : ¬ x.record_hash ≠ computeRecordHash H x.content := by
      simpa using hx.1.2
    have e2 : ¬ x.content.previous_hash ≠ prev := by
      simpa using hx.1.1
    simp only [List.map_cons, List.cons_append, List.append_eq, verifyLoop, e1, e2,
      not_false_eq_true, not_not, ite_true, ite_false, if_neg, if_pos]
    rw [ih rest (n + 1) (t + 1) (some x.record_hash) hx.2]
    have a1 : n + 1 + xs.length = n + (xs.length + 1) := by omega
    have a2 : t + 1 + xs.length = t + (xs.length + 1) := by omega
    simp [a1, a2, tailHash]

theorem isChain_append_middle (H : String → String) (r : LedgerRecord)
    (rs2 : List LedgerRecord) (rs1 : List LedgerRecord) :
    ∀ prev, isChain H prev (rs1 ++ r :: rs2) = true →
      isChain H prev rs1 = true ∧
      r.content.previous_hash = tailHash prev rs1 ∧
      r.record_hash = computeRecordHash H r.content := by
  induction rs1 with
  | nil =>
    intro prev h
    have hx := h
    simp only [List.nil_append, isChain, Bool.and_eq_true, decide_eq_true_eq] at hx
    exact ⟨rfl, hx.1.1, hx.1.2⟩
  | cons x xs ih =>
    intro prev h
    have hx := h
    simp only [List.cons_append, isChain, Bool.and_eq_true, decide_eq_true_eq] at hx
    obtain ⟨h1, h2, h3⟩ := ih (some x.record_hash) hx.2
    refine ⟨?_, ?_, h3⟩
    · simp only [isChain, Bool.and_eq_true, decide_eq_true_eq]
      exact ⟨⟨hx.1.1, hx.1.2⟩, h1⟩
    · simpa [tailHash] using h2

/-- C5: in a correctly appended ledger, changing one byte inside the line of
the record at position `N = rs1.length + 1` — turning that line malformed,
or changing its stored `record_hash`, or changing its content (the two
contents then hashing differently, per collision resistance) — makes
`verify_integrity` report `is_valid = false` with `first_invalid_record =
N`; the scan stops there no matter what follows the tampered line. -/
theorem c5_tamper_detection (H : String → String) (inps : List AppendInput)
    (st : FsState) (rs1 rs2 : List LedgerRecord) (r : LedgerRecord) (bad : Line)
    (h : appendSeq H inps ⟨[], none⟩ = some st)
    (hsplit : recordsOf st.ledger = rs1 ++ r :: rs2)
    (htamper : tamperOf H r bad) :
    (verifyIntegrity H (rs1.map Line.record ++ bad :: rs2.map Line.record)).is_valid
        = false ∧
    (verifyIntegrity H
        (rs1.map Line.record ++ bad :: rs2.map Line.record)).first_invalid_record
        = some (rs1.length + 1) := by
  have hl : recordsOf st.ledger = buildChain H none inps := by
    rw [appendSeq_ledger H inps st h, recordsOf_map]
  have hc : isChain H none (rs1 ++ r :: rs2) = true := by
    rw [← hsplit, hl]; exact isChain_buildChain H inps none
  obtain ⟨hc1, hlink, hhash⟩ := isChain_append_middle H r rs2 rs1 none hc
  rw [verifyIntegrity, verifyLoop_chain_prefix H rs1 _ 0 0 none hc1]
  rcases htamper with rfl | ⟨h1, rfl, hne⟩ | ⟨c1, rfl, _, hne⟩
  · simp [verifyLoop]
  · have hno : h1 ≠ computeRecordHash H r.content := by
      simpa [← hhash] using hne
    simp [verifyLoop, hno]
  · have hno : r.record_hash ≠ computeRecordHash H c1 := by
      simpa [computeRecordHash, hhash] using hne.symm
    simp [verifyLoop, hno]

theorem c5_tamper_detection_witness :
    (verifyIntegrity cH
        (([] : List LedgerRecord).map Line.record ++
          Line.record { content := wRec1.content, record_hash := "x" } ::
            [wRec2].map Line.record)).is_valid = false ∧
    (verifyIntegrity cH
        (([] : List LedgerRecord).map Line.record ++
          Line.record { content := wRec1.content, record_hash := "x" } ::
            [wRec2].map Line.record)).first_invalid_record = some 1 :=
  c5_tamper_detection cH [wInp1, wInp2] wSt2 [] [wRec2] wRec1
    (Line.record { content := wRec1.content, record_hash := "x" }) rfl
    (by decide) (Or.inr (Or.inl ⟨"x", rfl, by decide⟩))

/-! ### Claim C3 -/

/-- C3 (the code violates this claim): two concurrent `append_record` calls
interleaved at their await points — both reading the tail hash before either
writes, a schedule nothing in the lock-free `append_record` prevents —
persist two records with the same `previous_hash`, and `verify_integrity`
afterwards reports the chain invalid at line 2 instead of a valid chain of
length 2. -/
theorem c3_concurrent_append_fork (H : String → String) (a b : AppendInput) :
    ∃ rA rB,
      recordsOf (twoAppendsInterleaved H a b ⟨[], none⟩).ledger = [rA, rB] ∧
      rA.content.previous_hash = rB.content.previous_hash ∧
      (verifyIntegrity H (twoAppendsInterleaved H a b ⟨[], none⟩).ledger).is_valid
          = false ∧
      (verifyIntegrity H
          (twoAppendsInterleaved H a b ⟨[], none⟩).ledger).first_invalid_record
          = some 2 := by
    refine ⟨mkLedgerRecord H a none, mkLedgerRecord H b none, ?_, rfl, ?_, ?_⟩
    · simp [twoAppendsInterleaved, getLastRecordHash, recordsOf]
    · simp [twoAppendsInterleaved, getLastRecordHash, verifyIntegrity, verifyLoop,
        mkLedgerRecord]
    · simp [twoAppendsInterleaved, getLastRecordHash, verifyIntegrity, verifyLoop,
        mkLedgerRecord]

/-! ### Claim C6 -/

/-- C6 fails on the code at this input: with every I/O step succeeding
except the final removal of the temp file, `append_record` raises
`LedgerError` even though the new record line was fully appended, so the
call errors with the ledger changed. -/
theorem c6_append_atomicity_counterexample :
    (appendRecordRun cH wFailRemove wInp1 ⟨[], none⟩).2 =
        Except.error "Failed to append record" ∧
    (appendRecordRun cH wFailRemove wInp1 ⟨[], none⟩).1.ledger =
        [Line.record (mkLedgerRecord cH wInp1 none)] ∧
    [Line.record (mkLedgerRecord cH wInp1 none)] ≠ ([] : List Line) := by
  refine ⟨rfl, rfl, by decide⟩

/-- C6 as amended: an `append_record` call never leaves a partial line.
Either it succeeds and exactly the one new, correctly linked record line was
appended; or it raises `LedgerError` with the ledger unchanged; or — when
the failure strikes only after the ledger write, in the removal of the temp
file — it raises `LedgerError` even though the one complete, correctly
linked record line was appended. -/
theorem c6_append_atomicity (H : String → String) (fails : AppendStep → Bool)
    (inp : AppendInput) (st : FsState) :
    (∃ p, getLastRecordHash st.ledger = Except.ok p ∧
      appendRecordRun H fails inp st =
        ({ ledger := st.ledger ++ [Line.record (mkLedgerRecord H inp p)]
           temp := none }, Except.ok (mkLedgerRecord H inp p))) ∨
    ((appendRecordRun H fails inp st).2 = Except.error "Failed to append record" ∧
      (appendRecordRun H fails inp st).1.ledger = st.ledger) ∨
    ((appendRecordRun H fails inp st).2 = Except.error "Failed to append record" ∧
      fails AppendStep.removeTemp = true ∧
      ∃ p, getLastRecordHash st.ledger = Except.ok p ∧
        (appendRecordRun H fails inp st).1.ledger =
          st.ledger ++ [Line.record (mkLedgerRecord H inp p)]) := by
  by_cases f1 : fails AppendStep.readTail = true
  · exact Or.inr (Or.inl (by simp [appendRecordRun, f1]))
  · rcases hg : getLastRecordHash st.ledger with e | p
    · refine Or.inr (Or.inl ?_)
      simp [appendRecordRun, f1, hg]
    · by_cases f2 : fails AppendStep.writeTemp = true
      · exact Or.inr (Or.inl (by simp [appendRecordRun, f1, hg, f2]))
      · by_cases f3 : fails AppendStep.writeLedger = true
        · exact Or.inr (Or.inl (by simp [appendRecordRun, f1, hg, f2, f3]))
        · by_cases f4 : fails AppendStep.removeTemp = true
          · refine Or.inr (Or.inr ⟨?_, f4, p, rfl, ?_⟩) <;>
              simp [appendRecordRun, f1, hg, f2, f3, f4]
          · exact Or.inl ⟨p, rfl, by simp [appendRecordRun, f1, hg, f2, f3, f4]⟩

/-! ### Claim C9 -/

theorem mem_initialMatches (all : List LedgerRecord) (sid : String)
    (r : LedgerRecord) :
    r ∈ initialMatches all sid ↔
      r ∈ all ∧ (r.batch_id = sid ∨ r.entities.batch_id = some sid) := by
  simp [initialMatches, List.mem_filter]

theorem mem_expandFold (G : List String) (l : List LedgerRecord) :
    ∀ (acc : List LedgerRecord) (x : LedgerRecord),
      (x ∈ l.foldl
        (fun acc r =>
          if r ∈ acc then acc
          else
            match r.entities.batch_id with
            | some s => if s ∈ G then acc ++ [r] else acc
            | none => acc)
        acc) ↔
      x ∈ acc ∨ (x ∈ l ∧ ∃ s, x.entities.batch_id = some s ∧ s ∈ G) := by
  induction l with
  | nil => intro acc x; simp
  | cons y ys ih =>
    intro acc x
    rw [List.foldl_cons, ih]
    have hstep :
        (x ∈ (if y ∈ acc then acc
          else
            match y.entities.batch_id with
            | some s => if s ∈ G then acc ++ [y] else acc
            | none => acc)) ↔
        x ∈ acc ∨ (x = y ∧ ∃ s, y.entities.batch_id = some s ∧ s ∈ G) := by
      by_cases hy : y ∈ acc
      · rw [if_pos hy]
        constructor
        · exact fun h => Or.inl h
        · rintro (h | ⟨rfl, _⟩)
          · exact h
          · exact hy
      · rw [if_neg hy]
        rcases hb : y.entities.batch_id with _ | s
        · simp [hb]
        · by_cases hs : s ∈ G
          · simp [hs, hb, List.mem_append]
          · simp [hs, hb]
    rw [hstep]
    constructor
    · rintro ((h | ⟨rfl, hc⟩) | ⟨hys, hc⟩)
      · exact Or.inl h
      · exact Or.inr ⟨List.mem_cons_self x ys, hc⟩
      · exact Or.inr ⟨List.mem_cons_of_mem y hys, hc⟩
    · rintro (h | ⟨hmem, hc⟩)
      · exact Or.inl (Or.inl h)
      · rcases List.mem_cons.mp hmem with rfl | hys
        · exact Or.inl (Or.inr ⟨rfl, hc⟩)
        · exact Or.inr ⟨hys, hc⟩

theorem mem_expandCohort (all matching : List LedgerRecord) (x : LedgerRecord) :
    x ∈ expandCohort all matching ↔
      x ∈ matching ∨ (x ∈ all ∧
        ∃ s, x.entities.batch_id = some s ∧ s ∈ groupedBatchIds matching) := by
  rw [expandCohort]
  by_cases hg : groupedBatchIds matching = []
  · rw [if_pos hg]
    simp [hg]
  · rw [if_neg hg]
    exact mem_expandFold (groupedBatchIds matching) all matching x

/-- C9 as amended: the cohort contains exactly the records whose own
`batch_id` or extracted `batch_id` equals the shipment id, plus those whose
extracted `batch_id` lies in the set of distinct non-null **and non-empty**
extracted `batch_id` values of the initially selected records (the Python
truthiness test in `grouped_batch_ids` also drops the empty string, which
the claim's "non-null" wording does not); the expansion uses only the
initially selected records' values, so nothing reachable only through two
or more hops enters. -/
theorem c9_cohort_membership (all : List LedgerRecord) (sid : String)
    (r : LedgerRecord) :
    r ∈ matchingRecords all sid ↔
      r ∈ all ∧ (r.batch_id = sid ∨ r.entities.batch_id = some sid ∨
        ∃ s, r.entities.batch_id = some s ∧
          s ∈ groupedBatchIds (initialMatches all sid)) := by
  rw [matchingRecords, mem_expandCohort]
  rw [mem_initialMatches]
  constructor
  · rintro (⟨ha, h⟩ | ⟨ha, s, hs, hgr⟩)
    · exact ⟨ha, h.imp id Or.inl⟩
    · exact ⟨ha, Or.inr (Or.inr ⟨s, hs, hgr⟩)⟩
  · rintro ⟨ha, h | h | ⟨s, hs, hgr⟩⟩
    · exact Or.inl ⟨ha, Or.inl h⟩
    · exact Or.inl ⟨ha, Or.inr h⟩
    · exact Or.inr ⟨ha, s, hs, hgr⟩

/-- C9 fails on the code as stated: record `c9recB` satisfies the claim's
cohort description for shipment "S" — its extracted `batch_id` (the empty
string) is a non-null extracted `batch_id` value of the initially selected
record `c9recA` — yet the code's cohort omits it, because Python truthiness
drops the empty string from `grouped_batch_ids`. -/
theorem c9_cohort_membership_counterexample :
    specCohortMember [c9recA, c9recB] "S" c9recB ∧
      c9recB ∉ matchingRecords [c9recA, c9recB] "S" := by
  refine ⟨⟨by decide, Or.inr (Or.inr ⟨"", rfl, ?_⟩)⟩, by decide⟩
  decide

/-! ### Claim C10 -/

theorem getAllRecords_foldl_eq (ls : List Line) :
    ∀ acc : List LedgerRecord,
      ls.foldl
        (fun records l =>
          match l with
          | Line.record r => records ++ [r]
          | Line.blank => records
          | Line.malformed => records)
        acc = acc ++ ls.filterMap lineRecordOf := by
  induction ls with
  | nil => intro acc; simp
  | cons l ls ih =>
    intro acc
    cases l with
    | blank => simpa [lineRecordOf] using ih acc
    | malformed => simpa [lineRecordOf] using ih acc
    | record r => simp [lineRecordOf, ih (acc ++ [r])]

theorem pySliceLast_eq_lastLines (lines : List Line) (L : Int) (hL : 1 ≤ L) :
    pySliceLast lines L = lastLines L.toNat lines := by
  have h0 : 0 < L := hL
  rw [pySliceLast, if_pos h0, lastLines, ← List.rtake_eq_reverse_take_reverse]
  rfl

/-- C10 fails on the code as stated for the limit `0`: Python renders
`lines[-0:]` as `lines[0:]`, the whole file, so `get_all_records(0)` returns
a record although the last `0` raw lines contain none. -/
theorem c10_recent_window_counterexample :
    getAllRecords [Line.record c10rec] 0 = [c10rec] ∧
      (lastLines (Int.toNat 0) [Line.record c10rec]).reverse.filterMap lineRecordOf
        = [] :=
  ⟨rfl, rfl⟩

/-- C10 as amended: for every limit `L ≥ 1`, `get_all_records` returns
exactly the well-formed records among the last `L` raw lines of the file,
newest first — blank and unparsable lines inside the window count against
the limit and records older than the window are never returned.  (For
`L = 0` the Python slice `lines[-0:]` is the whole file, so the window
restriction fails there; the graph builder's call uses `L = 10000`.) -/
theorem c10_recent_window (lines : List Line) (L : Int) (hL : 1 ≤ L) :
    getAllRecords lines L =
      (lastLines L.toNat lines).reverse.filterMap lineRecordOf := by
  rw [getAllRecords, pySliceLast_eq_lastLines lines L hL, getAllRecords_foldl_eq]
  simp

/-! ### Claim C7 -/

theorem find_upsertDoc_self (k : String) (v : DocValues) :
    ∀ m : List (String × DocValues),
      (upsertDoc k v m).find? (fun p => p.1 == k) = some (k, v)
  | [] => by simp [upsertDoc]
  | (k0, v0) :: ps => by
    by_cases h : k0 = k
    · simp [upsertDoc, h]
    · rw [upsertDoc, if_neg h, List.find?_cons_of_neg _ (by simp [h])]
      exact find_upsertDoc_self k v ps

theorem find_upsertDoc_ne (k : String) (v : DocValues) (k2 : String)
    (hk : k2 ≠ k) :
    ∀ m : List (String × DocValues),
      (upsertDoc k v m).find? (fun p => p.1 == k2) =
        m.find? (fun p => p.1 == k2)
  | [] => by
    rw [upsertDoc, List.find?_cons_of_neg _ (by simp [Ne.symm hk])]
  | (k0, v0) :: ps => by
    by_cases h : k0 = k
    · subst h
      rw [upsertDoc, if_pos rfl,
        List.find?_cons_of_neg _ (by simp [Ne.symm hk]),
        List.find?_cons_of_neg _ (by simp [Ne.symm hk])]
    · rw [upsertDoc, if_neg h]
      by_cases h2 : k0 = k2
      · subst h2
        rw [List.find?_cons_of_pos _ (by simp), List.find?_cons_of_pos _ (by simp)]
      · rw [List.find?_cons_of_neg _ (by simp [h2]),
          List.find?_cons_of_neg _ (by simp [h2])]
        exact find_upsertDoc_ne k v k2 hk ps

theorem perDocFold_find_absent (l : List LedgerRecord) :
    ∀ (acc : List (String × DocValues)) (k : String),
      (∀ x ∈ l, x.batch_id ≠ k) →
      ((l.foldl (fun acc r => upsertDoc r.batch_id (docValuesOf r) acc) acc).find?
        (fun p => p.1 == k)) = acc.find? (fun p => p.1 == k) := by
  induction l with
  | nil => intro acc k _; rfl
  | cons y ys ih =>
    intro acc k h
    rw [List.foldl_cons,
      ih _ k (fun x hx => h x (List.mem_cons_of_mem y hx)),
      find_upsertDoc_ne _ _ _ (Ne.symm (h y (List.mem_cons_self y ys)))]

theorem perDoc_find_eq (l : List LedgerRecord) :
    ∀ (acc : List (String × DocValues)) (r : LedgerRecord), r ∈ l →
      (l.map LedgerRecord.batch_id).Nodup →
      ((l.foldl (fun acc r => upsertDoc r.batch_id (docValuesOf r) acc) acc).find?
        (fun p => p.1 == r.batch_id)) = some (r.batch_id, docValuesOf r) := by
  induction l with
  | nil => intro acc r hr; cases hr
  | cons y ys ih =>
    intro acc r hr hnd
    rw [List.map_cons, List.nodup_cons] at hnd
    rw [List.foldl_cons]
    rcases List.mem_cons.mp hr with rfl | hr2
    · have habs : ∀ x ∈ ys, x.batch_id ≠ r.batch_id := by
        intro x hx he
        exact hnd.1 (he ▸ List.mem_map_of_mem LedgerRecord.batch_id hx)
      rw [perDocFold_find_absent ys _ _ habs, find_upsertDoc_self]
    · exact ih _ r hr2 hnd.2

theorem perDocLookup_eq (cohort : List LedgerRecord) (r : LedgerRecord)
    (hr : r ∈ cohort) (hnd : (cohort.map LedgerRecord.batch_id).Nodup) :
    perDocLookup (perDocValuesOf cohort) r.batch_id = docValuesOf r := by
  rw [perDocLookup, perDocValuesOf, perDoc_find_eq cohort [] r hr hnd]

theorem chooseConsensus_isSome (values : List String) (v : String)
    (hv : v ∈ values) : ∃ c, chooseConsensus values = some c := by
  rcases values with _ | ⟨x, xs⟩
  · cases hv
  · have hd : dedupFirst (x :: xs) = x :: dedupFirstAux [x] xs := by
      simp [dedupFirst, dedupFirstAux]
    unfold chooseConsensus
    rw [hd]
    exact ⟨_, rfl⟩

theorem mem_fieldValuesOf (cohort : List LedgerRecord) (r : LedgerRecord)
    (f : String) (v : String) (hr : r ∈ cohort)
    (hv : ((docValuesOf r).get f).1 = some v) : v ∈ fieldValuesOf cohort f := by
  rw [fieldValuesOf]
  exact List.mem_filterMap.mpr ⟨r, hr, hv⟩

theorem processField_edges (H1 : String → String)
    (perDoc : List (String × DocValues)) (consensus : String → Option String)
    (displays : String → List (String × String)) (r : LedgerRecord)
    (acc : GraphAcc) (f : String) :
    (processField H1 perDoc consensus displays r acc f).edges =
      acc.edges ++ [edgeFor H1 perDoc consensus displays r f] := by
  by_cases h :
      entityNodeIdOf H1 f (edgePartsFor perDoc consensus displays r f).entityNorm
        ∈ acc.nodeIds
  · simp [processField, h]
  · simp [processField, h]

theorem foldl_processField_edges (H1 : String → String)
    (perDoc : List (String × DocValues)) (consensus : String → Option String)
    (displays : String → List (String × String)) (r : LedgerRecord)
    (fs : List String) :
    ∀ acc, (fs.foldl (processField H1 perDoc consensus displays r) acc).edges =
      acc.edges ++ fs.map (edgeFor H1 perDoc consensus displays r) := by
  induction fs with
  | nil => intro acc; simp
  | cons f fs ih =>
    intro acc
    rw [List.foldl_cons, ih, processField_edges]
    simp

theorem processRecord_edges (H1 : String → String)
    (perDoc : List (String × DocValues)) (consensus : String → Option String)
    (displays : String → List (String × String)) (acc : GraphAcc)
    (r : LedgerRecord) :
    (processRecord H1 perDoc consensus displays acc r).edges =
      acc.edges ++ trackedFields.map (edgeFor H1 perDoc consensus displays r) := by
  by_cases h : ("document:" ++ r.batch_id) ∈ acc.nodeIds
  · simp [processRecord, foldl_processField_edges, h]
  · simp [processRecord, foldl_processField_edges, h]

theorem foldl_processRecord_edges (H1 : String → String)
    (perDoc : List (String × DocValues)) (consensus : String → Option String)
    (displays : String → List (String × String)) (l : List LedgerRecord) :
    ∀ acc, (l.foldl (processRecord H1 perDoc consensus displays) acc).edges =
      acc.edges ++
        l.flatMap (fun r => trackedFields.map (edgeFor H1 perDoc consensus displays r)) := by
  induction l with
  | nil => intro acc; simp
  | cons r rs ih =>
    intro acc
    rw [List.foldl_cons, ih, processRecord_edges]
    simp

theorem graph_edges_eq (H1 : String → String) (all : List LedgerRecord)
    (sid : String) (g : ConsistencyGraphResponse)
    (hg : getConsistencyGraphOf H1 all sid = Except.ok g) :
    g.edges = (matchingRecords all sid).flatMap
      (fun r => trackedFields.map
        (fun f => cohortEdge H1 (matchingRecords all sid) r f)) := by
  by_cases hm : matchingRecords all sid = []
  · rw [getConsistencyGraphOf, if_pos hm] at hg
    cases hg
  · rw [getConsistencyGraphOf, if_neg hm] at hg
    injection hg with hg2
    rw [← hg2]
    rw [foldl_processRecord_edges]
    simp [cohortEdge]

theorem edgePartsFor_type (perDoc : List (String × DocValues))
    (consensus : String → Option String)
    (displays : String → List (String × String)) (r : LedgerRecord)
    (f : String) :
    (edgePartsFor perDoc consensus displays r f).edgeType =
      (match ((perDocLookup perDoc r.batch_id).get f).1, consensus f with
        | none, _ => "MISMATCH"
        | some _, none => "MATCH"
        | some n, some c => if n = c then "MATCH" else "MISMATCH") := by
  rcases h : (perDocLookup perDoc r.batch_id).get f with ⟨nv, dv⟩
  rcases nv with _ | n
  · simp [edgePartsFor, h]
  · rcases hc : consensus f with _ | c
    · simp [edgePartsFor, h, hc]
    · by_cases he : n = c
      · simp [edgePartsFor, h, hc, he]
      · simp [edgePartsFor, h, hc, he]

/-- C7 as amended: in any cohort whose records carry pairwise-distinct
ledger batch ids, the edge of a (record, field) pair is typed MATCH exactly
when the record's normalized value is present and equals the field's
consensus value (which covers the only-value case, the consensus then being
that value), and MISMATCH exactly otherwise — i.e. also when the value is
missing and no consensus exists for the field, where the claim's wording
specified neither type.  Both restrictions are forced by the
counterexample: the code types missing values MISMATCH even with no
consensus, and in a duplicate-batch-id cohort `per_doc_values` is keyed by
the shared ledger batch id, so a record's edges are typed from the last
duplicate's values rather than its own. -/
theorem c7_edge_typing (H1 : String → String) (all : List LedgerRecord)
    (sid : String) (g : ConsistencyGraphResponse)
    (hg : getConsistencyGraphOf H1 all sid = Except.ok g)
    (hnd : ((matchingRecords all sid).map LedgerRecord.batch_id).Nodup)
    (r : LedgerRecord) (hr : r ∈ matchingRecords all sid)
    (f : String) (hf : f ∈ trackedFields) :
    cohortEdge H1 (matchingRecords all sid) r f ∈ g.edges ∧
    ((cohortEdge H1 (matchingRecords all sid) r f).type = "MATCH" ↔
      ∃ v, ((docValuesOf r).get f).1 = some v ∧
        consensusOf (matchingRecords all sid) f = some v) ∧
    ((cohortEdge H1 (matchingRecords all sid) r f).type = "MISMATCH" ↔
      ¬ ∃ v, ((docValuesOf r).get f).1 = some v ∧
        consensusOf (matchingRecords all sid) f = some v) := by
  have hmem : cohortEdge H1 (matchingRecords all sid) r f ∈ g.edges := by
    rw [graph_edges_eq H1 all sid g hg]
    exact List.mem_flatMap.mpr ⟨r, hr, List.mem_map_of_mem _ hf⟩
  have htype0 : (cohortEdge H1 (matchingRecords all sid) r f).type =
      (match ((docValuesOf r).get f).1, consensusOf (matchingRecords all sid) f with
        | none, _ => "MISMATCH"
        | some _, none => "MATCH"
        | some n, some c => if n = c then "MATCH" else "MISMATCH") := by
    have h0 : (cohortEdge H1 (matchingRecords all sid) r f).type =
        (edgePartsFor (perDocValuesOf (matchingRecords all sid))
          (fun x => consensusOf (matchingRecords all sid) x)
          (fun x => displayValuesOf (matchingRecords all sid) x) r f).edgeType := rfl
    rw [h0, edgePartsFor_type, perDocLookup_eq _ r hr hnd]
  rcases hv : ((docValuesOf r).get f).1 with _ | n
  · have ht : (cohortEdge H1 (matchingRecords all sid) r f).type = "MISMATCH" := by
      rw [htype0, hv]
    refine ⟨hmem, ?_, ?_⟩
    · rw [ht]
      constructor
      · intro h; exact absurd h (by decide)
      · rintro ⟨v, hv2, _⟩
        cases hv2
    · rw [ht]
      constructor
      · rintro _ ⟨v, hv2, _⟩
        cases hv2
      · intro _; rfl
  · obtain ⟨c, hc⟩ := chooseConsensus_isSome (fieldValuesOf (matchingRecords all sid) f) n
      (mem_fieldValuesOf _ r f n hr hv)
    have hcon : consensusOf (matchingRecords all sid) f = some c := by
      rw [consensusOf, hc]
    by_cases he : n = c
    · have ht : (cohortEdge H1 (matchingRecords all sid) r f).type = "MATCH" := by
        rw [htype0, hv, hcon]
        simp [he]
      refine ⟨hmem, ?_, ?_⟩
      · rw [ht]
        constructor
        · intro _; exact ⟨n, rfl, by rw [hcon, he]⟩
        · intro _; rfl
      · rw [ht]
        constructor
        · intro h; exact absurd h (by decide)
        · intro h
          exact absurd ⟨n, rfl, by rw [hcon, he]⟩ h
    · have ht : (cohortEdge H1 (matchingRecords all sid) r f).type = "MISMATCH" := by
        rw [htype0, hv, hcon]
        simp [he]
      have hno : ¬ ∃ v, (some n : Option String) = some v ∧
          consensusOf (matchingRecords all sid) f = some v := by
        rintro ⟨v, hv2, hc2⟩
        cases Option.some.inj hv2
        rw [hcon] at hc2
        exact he (Option.some.inj hc2).symm
      refine ⟨hmem, ?_, ?_⟩
      · rw [ht]
        constructor
        · intro h; exact absurd h (by decide)
        · intro h; exact absurd h hno
      · rw [ht]
        exact ⟨fun _ => hno, fun _ => rfl⟩

/-! ### Claim C8 -/

theorem colon_sep_inj (u : List Char) :
    ':' ∉ u → ∀ v : List Char, ':' ∉ v →
      ∀ x y : List Char, u ++ ':' :: x = v ++ ':' :: y → u = v ∧ x = y := by
  induction u with
  | nil =>
    intro _ v hv x y h
    cases v with
    | nil =>
      simp only [List.nil_append] at h
      injection h with _ h2
      exact ⟨rfl, h2⟩
    | cons d vs =>
      simp only [List.nil_append, List.cons_append] at h
      injection h with h1 _
      exact absurd (show (':' : Char) ∈ d :: vs by
        rw [h1]; exact List.mem_cons_self d vs) hv
  | cons c us ih =>
    intro hu v hv x y h
    cases v with
    | nil =>
      simp only [List.cons_append, List.nil_append] at h
      injection h with h1 _
      exact absurd (show (':' : Char) ∈ c :: us by
        rw [← h1]; exact List.mem_cons_self c us) hu
    | cons d vs =>
      simp only [List.cons_append] at h
      injection h with h1 h2
      have hu2 : (':' : Char) ∉ us := fun hx => hu (List.mem_cons_of_mem c hx)
      have hv2 : (':' : Char) ∉ vs := fun hx => hv (List.mem_cons_of_mem d hx)
      obtain ⟨huv, hxy⟩ := ih hu2 vs hv2 x y h2
      exact ⟨by rw [h1, huv], hxy⟩

theorem trackedFields_no_colon : ∀ f ∈ trackedFields, (':' : Char) ∉ f.data.reverse := by
  decide

theorem edgeId_inj (b1 b2 f1 f2 : String) (hf1 : f1 ∈ trackedFields)
    (hf2 : f2 ∈ trackedFields)
    (h : "edge:" ++ b1 ++ ":" ++ f1 = "edge:" ++ b2 ++ ":" ++ f2) :
    b1 = b2 ∧ f1 = f2 := by
  have hd := congrArg String.data h
  simp only [String.data_append] at hd
  simp only [List.append_assoc, List.singleton_append, List.cons_append,
    List.nil_append, List.cons.injEq, true_and] at hd
  have hr := congrArg List.reverse hd
  simp only [List.reverse_append, List.reverse_cons, List.append_assoc,
    List.singleton_append] at hr
  obtain ⟨hfe, hbe⟩ := colon_sep_inj f1.data.reverse
    (trackedFields_no_colon f1 hf1) f2.data.reverse
    (trackedFields_no_colon f2 hf2) b1.data.reverse b2.data.reverse hr
  exact ⟨String.ext (List.reverse_injective hbe),
    String.ext (List.reverse_injective hfe)⟩

theorem docId_inj (b1 b2 : String)
    (h : "document:" ++ b1 = "document:" ++ b2) : b1 = b2 := by
  have hd := congrArg String.data h
  simp only [String.data_append] at hd
  exact String.ext (List.append_cancel_left hd)

theorem countP_flatMap_zero (p : GraphEdge → Bool)
    (g : LedgerRecord → List GraphEdge) (l : List LedgerRecord)
    (h : ∀ x ∈ l, (g x).countP p = 0) : (l.flatMap g).countP p = 0 := by
  induction l with
  | nil => rfl
  | cons y ys ih =>
    rw [List.flatMap_cons, List.countP_append, h y (List.mem_cons_self y ys),
      ih fun x hx => h x (List.mem_cons_of_mem y hx)]

theorem countP_flatMap_single (p : GraphEdge → Bool)
    (g : LedgerRecord → List GraphEdge) (l : List LedgerRecord)
    (r : LedgerRecord) :
    (l.map LedgerRecord.batch_id).Nodup → r ∈ l →
    (g r).countP p = 1 →
    (∀ x : LedgerRecord, x.batch_id ≠ r.batch_id → (g x).countP p = 0) →
    (l.flatMap g).countP p = 1 := by
  induction l with
  | nil => intro _ hr; cases hr
  | cons y ys ih =>
    intro hnd hr h1 h0
    rw [List.map_cons, List.nodup_cons] at hnd
    rw [List.flatMap_cons, List.countP_append]
    rcases List.mem_cons.mp hr with rfl | hr2
    · have hz : (ys.flatMap g).countP p = 0 := by
        refine countP_flatMap_zero p g ys fun x hx => ?_
        refine h0 x fun he => ?_
        exact hnd.1 (he ▸ List.mem_map_of_mem LedgerRecord.batch_id hx)
      rw [h1, hz]
    · have hy : y.batch_id ≠ r.batch_id := fun he =>
        hnd.1 (he ▸ List.mem_map_of_mem LedgerRecord.batch_id hr2)
      rw [h0 y hy, ih hnd.2 hr2 h1 h0]

/-- C8 as amended: whenever the cohort records carry pairwise-distinct
ledger batch ids, the graph has exactly one edge per (document node,
tracked field) pair and all edge ids are distinct.  (With duplicate batch
ids — which the store does not forbid — each duplicate record contributes
its own five edges with colliding ids, as the counterexample shows.) -/
theorem c8_edge_uniqueness (H1 : String → String) (all : List LedgerRecord)
    (sid : String) (g : ConsistencyGraphResponse)
    (hg : getConsistencyGraphOf H1 all sid = Except.ok g)
    (hnd : ((matchingRecords all sid).map LedgerRecord.batch_id).Nodup) :
    (g.edges.map GraphEdge.id).Nodup ∧
    ∀ r ∈ matchingRecords all sid, ∀ f ∈ trackedFields,
      (g.edges.filter fun e =>
        e.source == "document:" ++ r.batch_id && e.field_name == f).length = 1 := by
  have hids : ∀ r' : LedgerRecord,
      (trackedFields.map fun f' => cohortEdge H1 (matchingRecords all sid) r' f').map
          GraphEdge.id =
        trackedFields.map fun f' => "edge:" ++ r'.batch_id ++ ":" ++ f' := by
    intro r'
    rw [List.map_map]
    rfl
  constructor
  · rw [graph_edges_eq H1 all sid g hg, List.map_flatMap]
    refine List.nodup_flatMap.mpr ⟨?_, ?_⟩
    · intro r' _
      simp only [hids r']
      refine List.Nodup.map_on ?_ (by decide)
      intro f1 hf1 f2 hf2 he
      exact (edgeId_inj r'.batch_id r'.batch_id f1 f2 hf1 hf2 he).2
    · have hp : (matchingRecords all sid).Pairwise
          (fun a b => a.batch_id ≠ b.batch_id) := List.pairwise_map.mp hnd
      refine hp.imp ?_
      intro a b hab x hxa hxb
      simp only [List.mem_map] at hxa hxb
      obtain ⟨e1, ⟨f1, hf1, he1⟩, hx1⟩ := hxa
      obtain ⟨e2, ⟨f2, hf2, he2⟩, hx2⟩ := hxb
      have hid1 : e1.id = "edge:" ++ a.batch_id ++ ":" ++ f1 := by
        rw [← he1]; rfl
      have hid2 : e2.id = "edge:" ++ b.batch_id ++ ":" ++ f2 := by
        rw [← he2]; rfl
      have hsame : "edge:" ++ a.batch_id ++ ":" ++ f1 =
          "edge:" ++ b.batch_id ++ ":" ++ f2 := by
        rw [← hid1, ← hid2, hx1, hx2]
      exact hab (edgeId_inj a.batch_id b.batch_id f1 f2 hf1 hf2 hsame).1
  · intro r hr f hf
    rw [graph_edges_eq H1 all sid g hg,
      ← List.countP_eq_length_filter]
    refine countP_flatMap_single _ _ _ r hnd hr ?_ ?_
    · rw [List.countP_map]
      have hcc : ∀ f' : String,
          ((fun e => e.source == "document:" ++ r.batch_id && e.field_name == f) ∘
            fun f' => cohortEdge H1 (matchingRecords all sid) r f') f' =
            (f' == f) := by
        intro f'
        simp [cohortEdge, edgeFor]
      rw [List.countP_congr fun f' hf' => by rw [hcc f']]
      have hf5 : f = "batch_id" ∨ f = "exporter" ∨ f = "quantity" ∨
          f = "dates" ∨ f = "certificate_id" := by
        simpa [trackedFields] using hf
      rcases hf5 with rfl | rfl | rfl | rfl | rfl <;> decide
    · intro x hx
      rw [List.countP_map]
      refine List.countP_eq_zero.mpr fun f' _ => ?_
      intro hpe
      simp only [Function.comp_apply, cohortEdge, edgeFor, Bool.and_eq_true,
        beq_iff_eq] at hpe
      exact hx (docId_inj x.batch_id r.batch_id hpe.1)

/-- C8 fails on the code as stated: with two cohort records sharing the
ledger batch id "S" (duplicates the store does not forbid), the graph holds
two edges per (document node, field) pair and the edge ids collide. -/
theorem c8_edge_uniqueness_counterexample :
    ¬ (c8graph.edges.map GraphEdge.id).Nodup ∧
    (c8graph.edges.filter fun e =>
      e.source == "document:" ++ "S" && e.field_name == "exporter").length = 2 := by
  constructor
  · decide
  · decide

theorem c8_edge_uniqueness_witness :
    ((match getConsistencyGraphOf id [c8recA] "S" with
      | Except.ok g => g
      | Except.error _ => { shipment_id := "", nodes := [], edges := [] }
      : ConsistencyGraphResponse).edges.map GraphEdge.id).Nodup :=
  (c8_edge_uniqueness id [c8recA] "S" _ rfl (by decide)).1

/-- C7 fails on the code as stated, in two ways that together force the
amended claim.  First, in the single-record cohort of `c7rec` the
`certificate_id` value is missing and no consensus exists for that field,
yet the emitted edge is typed MISMATCH, although the claim assigns MISMATCH
only to values that differ from a consensus or are missing while one
exists.  Second, in the duplicate-batch-id cohort of `c8recA` and `c8recB`
(duplicates the store does not forbid), record `c8recA`'s own normalized
exporter equals the field's consensus, yet its emitted edge is typed
MISMATCH: `per_doc_values` is keyed by the shared ledger batch id, so the
later record's values overwrite the earlier record's. -/
theorem c7_edge_typing_counterexample :
    ((cohortEdge id (matchingRecords [c7rec] "S") c7rec "certificate_id").type
        = "MISMATCH" ∧
      cohortEdge id (matchingRecords [c7rec] "S") c7rec "certificate_id"
        ∈ c7graph.edges ∧
      ((docValuesOf c7rec).get "certificate_id").1 = none ∧
      consensusOf (matchingRecords [c7rec] "S") "certificate_id" = none) ∧
    ((cohortEdge id (matchingRecords [c8recA, c8recB] "S") c8recA "exporter").type
        = "MISMATCH" ∧
      cohortEdge id (matchingRecords [c8recA, c8recB] "S") c8recA "exporter"
        ∈ c8graph.edges ∧
      ((docValuesOf c8recA).get "exporter").1 = some "acme" ∧
      consensusOf (matchingRecords [c8recA, c8recB] "S") "exporter"
        = some "acme") := by
  exact ⟨⟨by decide, by decide, by decide, by decide⟩,
    by decide, by decide, by decide, by decide⟩

theorem c7_edge_typing_witness :
    (cohortEdge id (matchingRecords [c7rec] "S") c7rec "exporter").type = "MATCH" ↔
      ∃ v, ((docValuesOf c7rec).get "exporter").1 = some v ∧
        consensusOf (matchingRecords [c7rec] "S") "exporter" = some v :=
  (c7_edge_typing id [c7rec] "S" c7graph rfl (by decide) c7rec (by decide)
    "exporter" (by decide)).2.1

theorem c10_recent_window_witness :
    getAllRecords [Line.record c10rec, Line.blank] 1 =
      (lastLines (Int.toNat 1) [Line.record c10rec, Line.blank]).reverse.filterMap
        lineRecordOf :=
  c10_recent_window [Line.record c10rec, Line.blank] 1 (by decide)

end VeriPura
